import Mathlib

/-
  Verification of the cmd-runner command-resolution and synthesis layer.

  The Go sources are shallowly embedded: pure string manipulation is
  translated to executable Lean functions over `List Char` / `String`;
  the filesystem is an explicit association list from paths to contents;
  subprocess execution is represented by returning the `Invocation`
  values that would be spawned (in order), and by parametrising the
  synthesis policies over environments that record which constituent
  verbs resolve and whether their runs succeed.
-/

namespace CmdRunnerProof

/-! ## String helpers (structural-recursion replacements for Go string ops) -/

/-- Does `s` begin with the pattern `p`?  (Model of Go strings.HasPrefix on char lists.) -/
def charsBeginWith : List Char → List Char → Bool
  | [], _ => true
  | _ :: _, [] => false
  | p :: ps, c :: cs => p == c && charsBeginWith ps cs

/-- Does the char list contain the pattern as a contiguous substring? -/
def charsContain (pat : List Char) : List Char → Bool
  | [] => charsBeginWith pat []
  | c :: cs => charsBeginWith pat (c :: cs) || charsContain pat cs

/-- Model of Go strings.Contains. -/
def containsSubstr (s pat : String) : Bool :=
  charsContain pat.data s.data

/-- Model of Go strings.HasPrefix. -/
def startsWithStr (s pat : String) : Bool :=
  charsBeginWith pat.data s.data

/-- Split a char list on a separator character; n-1 separators yield n parts,
as Go strings.Split does. -/
def splitCharsOn (sep : Char) : List Char → List (List Char)
  | [] => [[]]
  | c :: cs =>
    let r := splitCharsOn sep cs
    if c == sep then [] :: r
    else
      match r with
      | [] => [[c]]
      | h :: t => (c :: h) :: t

/-- Model of Go strings.TrimSpace on char lists. -/
def trimChars (l : List Char) : List Char :=
  ((l.dropWhile (·.isWhitespace)).reverse.dropWhile (·.isWhitespace)).reverse

/-- Model of Go strings.TrimSpace. -/
def trimStr (s : String) : String :=
  String.mk (trimChars s.data)

/-- Model of Go strings.Fields: split around runs of whitespace, no empty fields. -/
def fieldsAux : List Char → List Char → List (List Char)
  | [], acc => if acc.isEmpty then [] else [acc.reverse]
  | c :: cs, acc =>
    if c.isWhitespace then
      if acc.isEmpty then fieldsAux cs [] else acc.reverse :: fieldsAux cs []
    else fieldsAux cs (c :: acc)

/-- Model of Go strings.Fields on a char list. -/
def fieldsChars (l : List Char) : List (List Char) :=
  fieldsAux l []

/-- Association-list lookup on string keys (Go map lookup for the static tables). -/
def lookupSL {α : Type} : List (String × α) → String → Option α
  | [], _ => none
  | (k, v) :: rest, key => if k == key then some v else lookupSL rest key

/-! ## Filesystem model

The OS is an external collaborator; a filesystem is a finite map from
full paths to file contents. -/

/-- A filesystem: association list from full path to file content. -/
abbrev FS := List (String × String)

/-- Model of os.ReadFile: the content when the path exists. -/
def readFileOpt (fs : FS) (path : String) : Option String :=
  lookupSL fs path

/-- Model of os.ReadFile with errors ignored (Go code using `data, _ := os.ReadFile`). -/
def readFileD (fs : FS) (path : String) : String :=
  (readFileOpt fs path).getD ""

/-- Model of FileExists (os.Stat succeeds). -/
def FileExists (fs : FS) (path : String) : Bool :=
  (readFileOpt fs path).isSome

/-- Model of filepath.Join for the two-component joins used by the sources. -/
def filepathJoin (dir name : String) : String :=
  dir ++ "/" ++ name

/-- An executable invocation: program, arguments, working directory
(the exec.Cmd values built by the sources, before stdio wiring). -/
structure Invocation where
  prog : String
  args : List String
  dir : String
deriving DecidableEq, Repr

/-- Go builds `dirs := [currentDir]` and appends the project root when distinct. -/
def dirsOf (cur root : String) : List String :=
  if root == cur then [cur] else [cur, root]

end CmdRunnerProof

namespace CmdRunnerProof.Internal

open CmdRunnerProof

/-! ## package internal: alias table (src/internal/cmdrunner.go) -/

/-- The variants table of GetCommandVariants in src/internal/cmdrunner.go. -/
def variantsTable : List (String × List String) :=
  [("format", ["format", "fmt", "f"]),
   ("f", ["f", "format", "fmt"]),
   ("run", ["run", "r", "dev", "serve", "start"]),
   ("r", ["r", "run", "dev", "serve", "start"]),
   ("dev", ["dev", "run", "serve", "start"]),
   ("serve", ["serve", "s", "dev", "run", "start"]),
   ("s", ["s", "serve", "dev", "run", "start"]),
   ("build", ["build", "b"]),
   ("b", ["b", "build"]),
   ("lint", ["lint", "l"]),
   ("l", ["l", "lint"]),
   ("test", ["test", "t", "tests"]),
   ("t", ["t", "test", "tests"]),
   ("fix", ["fix", "format-fix", "lint-fix"]),
   ("clean", ["clean"]),
   ("install", ["install"]),
   ("setup", ["setup"]),
   ("check", ["check"]),
   ("typecheck", ["typecheck", "type-check", "types", "tc"]),
   ("tc", ["tc", "typecheck", "type-check", "types"])]

/-- GetCommandVariants (src/internal/cmdrunner.go): the table entry, or the
singleton of the verb itself. -/
def GetCommandVariants (command : String) : List String :=
  match lookupSL variantsTable command with
  | some v => v
  | none => [command]

/-- The aliases table of NormalizeCommand in src/internal/cmdrunner.go. -/
def aliasesTable : List (String × List String) :=
  [("format", ["format", "fmt"]),
   ("fmt", ["format", "fmt"]),
   ("f", ["format"]),
   ("run", ["run", "dev", "serve", "start"]),
   ("r", ["run"]),
   ("dev", ["dev", "run", "serve", "start"]),
   ("serve", ["serve", "dev", "run", "start"]),
   ("s", ["serve"]),
   ("start", ["start", "run", "dev", "serve"]),
   ("build", ["build"]),
   ("b", ["build"]),
   ("lint", ["lint"]),
   ("l", ["lint"]),
   ("test", ["test"]),
   ("t", ["test"]),
   ("fix", ["fix"]),
   ("clean", ["clean"]),
   ("install", ["install"]),
   ("setup", ["setup"]),
   ("check", ["check"]),
   ("typecheck", ["typecheck"]),
   ("tc", ["typecheck"])]

/-- NormalizeCommand (src/internal/cmdrunner.go): the first alternative of the
alias entry, identity on unknown verbs.  Go indexes `alternatives[0]`; every
table entry is nonempty so `headI` coincides with it. -/
def NormalizeCommand (cmd : String) : String :=
  match lookupSL aliasesTable cmd with
  | some alternatives => alternatives.headI
  | none => cmd

/-- Every value the aliases table can produce is itself a fixed point. -/
theorem aliasesTable_values_fixed :
    aliasesTable.all (fun p => NormalizeCommand p.2.headI == p.2.headI) = true := by
  decide

theorem lookupSL_mem {α : Type} (l : List (String × α)) (k : String) (v : α)
    (h : lookupSL l k = some v) : ∃ p ∈ l, p.2 = v := by
  induction l with
  | nil => simp [lookupSL] at h
  | cons hd tl ih =>
    simp only [lookupSL] at h
    by_cases hk : hd.1 == k
    · simp [hk] at h
      exact ⟨hd, List.mem_cons_self _ _, h⟩
    · simp [hk] at h
      obtain ⟨p, hp, hv⟩ := ih h
      exact ⟨p, List.mem_cons_of_mem _ hp, hv⟩

/-! ## package internal: MakeSource (src/internal/sources_runners.go) -/

/-- The Makefile targets parsed out of one makefile content by
MakeSource.ListCommands: lines containing a colon and not starting with a tab
or space contribute their trimmed first colon-separated part, unless it starts
with a dot, contains an equals sign, or is empty. -/
def makeTargetsOfContent (data : String) : List String :=
  (splitCharsOn (Char.ofNat 10) data.data).filterMap fun line =>
    if charsContain [Char.ofNat 58] line
        && !charsBeginWith [Char.ofNat 9] line
        && !charsBeginWith [Char.ofNat 32] line then
      let target := String.mk (trimChars ((splitCharsOn (Char.ofNat 58) line).headD []))
      if !startsWithStr target "." && !containsSubstr target "=" && target != "" then
        some target
      else none
    else none

/-- MakeSource.ListCommands: the targets of Makefile then makefile in `dir`
(only command-name membership matters downstream). -/
def makeListCommands (fs : FS) (dir : String) : List String :=
  (["Makefile", "makefile"].filterMap
    (fun mf => readFileOpt fs (filepathJoin dir mf))).flatMap makeTargetsOfContent

/-- MakeSource.FindCommand: the first variant present among the parsed targets
wins and builds `make <variant> <args...>` in the source directory. -/
def makeFindCommand (fs : FS) (dir : String) (command : String)
    (args : List String) : Option Invocation :=
  (GetCommandVariants command).findSome? fun variant =>
    if (makeListCommands fs dir).contains variant then
      some ⟨"make", variant :: args, dir⟩
    else none

/-! ## package internal: CommandRunner.Run (src/internal/cmdrunner.go) -/

/-- A command source, reduced to its FindCommand capability (the only
operation Run uses). -/
structure Source where
  FindCommand : String → List String → Option Invocation

/-- The double loop of Run: over projects (current dir then project root),
over each project's sources, first hit wins. -/
def findAcrossProjects (projects : List (List Source)) (cmd : String)
    (args : List String) : Option Invocation :=
  projects.findSome? fun sources => sources.findSome? fun s => s.FindCommand cmd args

/-- The observable outcome of CommandRunner.Run: execute an invocation,
dispatch to one of the three synthesis handlers, or fail. -/
inductive RunOutcome where
  | exec (inv : Invocation)
  | handleCheck
  | handleFix
  | handleTypecheck
  | failure (msg : String)
deriving DecidableEq, Repr

/-- The generic not-found error of Run (apostrophes written via Char.ofNat 39). -/
def noCommandFoundMsg (cmd : String) : String :=
  "no command " ++ String.singleton (Char.ofNat 39) ++ cmd
    ++ String.singleton (Char.ofNat 39)
    ++ " found in current directory or project root"

/-- CommandRunner.Run (src/internal/cmdrunner.go lines 54-99), with `rCommand`
being the stored field r.Command.  Phase 1 probes r.Command as stored; the
check/fix/typecheck dispatch follows; then the normalized retry; then the
not-found error naming r.Command. -/
def runnerRun (rCommand : String) (args : List String)
    (projects : List (List Source)) : RunOutcome :=
  match findAcrossProjects projects rCommand args with
  | some cmd => .exec cmd
  | none =>
    if rCommand == "check" then .handleCheck
    else if rCommand == "fix" then .handleFix
    else if rCommand == "typecheck" then .handleTypecheck
    else
      let normalizedCommand := NormalizeCommand rCommand
      if normalizedCommand != rCommand then
        match findAcrossProjects projects normalizedCommand args with
        | some cmd => .exec cmd
        | none => .failure (noCommandFoundMsg rCommand)
      else .failure (noCommandFoundMsg rCommand)

/-- New (src/internal/cmdrunner.go lines 21-26) stores
`Command: NormalizeCommand(command)`, so a top-level invocation with the
typed verb runs Run with the canonicalized verb as r.Command. -/
def cmdrInvoke (typed : String) (args : List String)
    (projects : List (List Source)) : RunOutcome :=
  runnerRun (NormalizeCommand typed) args projects

/-! Concrete scenario for claim C1: a Makefile defining both an `f` target and
a `format` target. -/

/-- A Makefile whose sources define both a task literally named `f` and a task
named `format`. -/
def makefileBoth : String :=
  "f:\n\techo running-f\nformat:\n\techo running-format\n"

/-- Filesystem for the C1 scenario: a single directory `d` holding that Makefile. -/
def fsC1 : FS := [("d/Makefile", makefileBoth)]

/-- The resolved project list for the C1 scenario: one directory whose only
command source is the Make source over `fsC1`. -/
def projectsC1 : List (List Source) :=
  [[⟨fun cmd args => makeFindCommand fsC1 "d" cmd args⟩]]

/-! ## package internal: detectPackageManager (src/internal/sources_node.go) -/

/-- detectPackageManager: lockfiles first, then Deno configs, then yarn/npm
config files, then package.json fallback, else empty. -/
def detectPackageManager (fs : FS) (dir : String) : String :=
  if FileExists fs (filepathJoin dir "bun.lockb") then "bun"
  else if FileExists fs (filepathJoin dir "pnpm-lock.yaml") then "pnpm"
  else if FileExists fs (filepathJoin dir "yarn.lock") then "yarn"
  else if FileExists fs (filepathJoin dir "package-lock.json") then "npm"
  else if FileExists fs (filepathJoin dir "deno.lock") then "deno"
  else if FileExists fs (filepathJoin dir "deno.json")
      || FileExists fs (filepathJoin dir "deno.jsonc") then "deno"
  else if FileExists fs (filepathJoin dir ".yarnrc.yml")
      || FileExists fs (filepathJoin dir ".yarnrc") then "yarn"
  else if FileExists fs (filepathJoin dir ".npmrc") then
    (if containsSubstr (readFileD fs (filepathJoin dir ".npmrc")) "pnpm" then "pnpm"
     else "npm")
  else if FileExists fs (filepathJoin dir "package.json") then "npm"
  else ""

/-! ## Python source detection (ResolveProject / detectPythonProject of the
internal package, with the factory applicability checks of NewPoetrySource
and NewUvSource) -/

/-- NewPoetrySource applicability: a poetry.lock, or a pyproject.toml whose
content mentions the [tool.poetry] table. -/
def NewPoetrySourceApplies (fs : FS) (dir : String) : Bool :=
  FileExists fs (filepathJoin dir "poetry.lock")
    || (FileExists fs (filepathJoin dir "pyproject.toml")
        && containsSubstr (readFileD fs (filepathJoin dir "pyproject.toml"))
            "[tool.poetry]")

/-- NewUvSource applicability: a uv.lock or .uv marker, or a pyproject.toml
whose content mentions the [tool.uv] table. -/
def NewUvSourceApplies (fs : FS) (dir : String) : Bool :=
  FileExists fs (filepathJoin dir "uv.lock")
    || FileExists fs (filepathJoin dir ".uv")
    || (FileExists fs (filepathJoin dir "pyproject.toml")
        && containsSubstr (readFileD fs (filepathJoin dir "pyproject.toml"))
            "[tool.uv]")

/-- detectPythonProject, reduced to the Name() of the source it yields:
poetry.lock wins, then uv markers, then manifest sniffing, defaulting to the
uv factory (which may itself decline, yielding no python source). -/
def detectPythonProjectName (fs : FS) (dir : String) : Option String :=
  if FileExists fs (filepathJoin dir "poetry.lock") then
    (if NewPoetrySourceApplies fs dir then some "Poetry" else none)
  else if FileExists fs (filepathJoin dir "uv.lock")
      || FileExists fs (filepathJoin dir ".uv") then
    (if NewUvSourceApplies fs dir then some "uv" else none)
  else if containsSubstr (readFileD fs (filepathJoin dir "pyproject.toml"))
      "[tool.poetry]" then
    (if NewPoetrySourceApplies fs dir then some "Poetry" else none)
  else if containsSubstr (readFileD fs (filepathJoin dir "pyproject.toml"))
      "[tool.uv]" then
    (if NewUvSourceApplies fs dir then some "uv" else none)
  else (if NewUvSourceApplies fs dir then some "uv" else none)

/-- The Name() of the python source ResolveProject registers for `dir`
(ResolveProject only consults detectPythonProject when a pyproject.toml
exists); this is the packageManager the typecheck synthesis loop observes. -/
def pythonSourceName (fs : FS) (dir : String) : Option String :=
  if FileExists fs (filepathJoin dir "pyproject.toml") then
    detectPythonProjectName fs dir
  else none

/-! ## package internal: Cargo and Go sources (src/internal/sources_other.go) -/

/-- The static cargo verb table of CargoSource.FindCommand. -/
def cargoCommands : List (String × String) :=
  [("build", "build"), ("run", "run"), ("test", "test"), ("lint", "clippy"),
   ("format", "fmt"), ("fmt", "fmt"), ("clean", "clean"),
   ("typecheck", "check"), ("tc", "check"), ("check", "check"),
   ("fix", "fix"), ("setup", "fetch"), ("install", "install"),
   ("publish", "publish")]

/-- The variant loop of CargoSource.FindCommand over the static table. -/
def cargoFindLoop (dir : String) (args : List String) : List String → Option Invocation
  | [] => none
  | variant :: rest =>
    match lookupSL cargoCommands variant with
    | some cargoCmd =>
      if cargoCmd == "install" then
        some ⟨"cargo", ["install", "--path", "."] ++ args, dir⟩
      else some ⟨"cargo", cargoCmd :: args, dir⟩
    | none => cargoFindLoop dir args rest

/-- CargoSource.FindCommand: the variant loop, then the custom `run:<bin>`
binary-target fallback read from Cargo.toml. -/
def cargoFindCommand (fs : FS) (dir : String) (command : String)
    (args : List String) : Option Invocation :=
  match cargoFindLoop dir args (GetCommandVariants command) with
  | some c => some c
  | none =>
    if startsWithStr command "run:" then
      let binName := String.mk (command.data.drop 4)
      if containsSubstr (readFileD fs (filepathJoin dir "Cargo.toml"))
          ("name = " ++ String.singleton (Char.ofNat 34) ++ binName
            ++ String.singleton (Char.ofNat 34)) then
        some ⟨"cargo", ["run", "--bin", binName] ++ args, dir⟩
      else none
    else none

/-- The static go verb table of GoSource.FindCommand. -/
def goCommands : List (String × List String) :=
  [("build", ["build"]), ("run", ["run", "."]), ("test", ["test", "./..."]),
   ("format", ["fmt", "./..."]), ("fmt", ["fmt", "./..."]),
   ("clean", ["clean"]), ("setup", ["mod", "download"]),
   ("install", ["install", "."]), ("lint", ["vet", "./..."]),
   ("typecheck", ["build", "-o", "/dev/null", "./..."]),
   ("tc", ["build", "-o", "/dev/null", "./..."])]

/-- GoSource.FindCommand: first variant in the static table wins. -/
def goFindCommand (dir : String) (command : String)
    (args : List String) : Option Invocation :=
  (GetCommandVariants command).findSome? fun variant =>
    (lookupSL goCommands variant).map fun goCmd => ⟨"go", goCmd ++ args, dir⟩

/-! ## typecheck synthesis (src/unnamed/part_001, package internal) -/

/-- hasTypecheckCapability: some candidate directory has a TypeScript config,
a pyproject.toml mentioning pyright or mypy, a Cargo.toml, or a go.mod. -/
def hasTypecheckCapability (fs : FS) (cur root : String) : Bool :=
  (dirsOf cur root).any fun dir =>
    FileExists fs (filepathJoin dir "tsconfig.json")
      || (FileExists fs (filepathJoin dir "pyproject.toml")
          && (containsSubstr (readFileD fs (filepathJoin dir "pyproject.toml")) "pyright"
              || containsSubstr (readFileD fs (filepathJoin dir "pyproject.toml")) "mypy"))
      || FileExists fs (filepathJoin dir "Cargo.toml")
      || FileExists fs (filepathJoin dir "go.mod")

/-- createTypescriptCheckCommand: the package-manager-specific idiom for
running the local tsc; Deno projects yield no tsc invocation at all. -/
def createTypescriptCheckCommand (dir packageManager : String)
    (args : List String) : Option Invocation :=
  if packageManager == "npm" then
    some ⟨"npx", ["tsc", "--noEmit"] ++ args, dir⟩
  else if packageManager == "pnpm" then
    some ⟨"pnpm", ["exec", "tsc", "--noEmit"] ++ args, dir⟩
  else if packageManager == "yarn" then
    some ⟨"yarn", ["run", "tsc", "--noEmit"] ++ args, dir⟩
  else if packageManager == "bun" then
    some ⟨"bun", ["run", "tsc", "--noEmit"] ++ args, dir⟩
  else if packageManager == "deno" then
    none
  else
    some ⟨"npx", ["tsc", "--noEmit"] ++ args, dir⟩

/-- The pyright invocation of the typecheck synthesis pyproject branch,
per detected python package manager. -/
def pyrightInvocation (pm dir : String) (args : List String) : Invocation :=
  if pm == "uv" then ⟨"uv", ["run", "pyright"] ++ args, dir⟩
  else if pm == "Poetry" then ⟨"poetry", ["run", "pyright"] ++ args, dir⟩
  else ⟨"pyright", args, dir⟩

/-- The mypy invocation of the typecheck synthesis pyproject branch,
per detected python package manager. -/
def mypyInvocation (pm dir : String) (args : List String) : Invocation :=
  if pm == "uv" then ⟨"uv", ["run", "mypy", "."] ++ args, dir⟩
  else if pm == "Poetry" then ⟨"poetry", ["run", "mypy", "."] ++ args, dir⟩
  else ⟨"mypy", "." :: args, dir⟩

/-- One directory pass of synthesizeTypecheckCommand: TypeScript, then
pyproject with pyright or mypy, then Cargo, then Go; each branch that cannot
build a concrete invocation falls through to the next. -/
def synthesizeTypecheckDir (fs : FS) (dir : String)
    (args : List String) : Option Invocation :=
  (if FileExists fs (filepathJoin dir "tsconfig.json") then
     (if detectPackageManager fs dir != "" then
        createTypescriptCheckCommand dir (detectPackageManager fs dir) args
      else none)
   else none).orElse fun _ =>
  (if FileExists fs (filepathJoin dir "pyproject.toml") then
     let content := readFileD fs (filepathJoin dir "pyproject.toml")
     let pm := (pythonSourceName fs dir).getD ""
     if containsSubstr content "pyright" then some (pyrightInvocation pm dir args)
     else if containsSubstr content "mypy" then some (mypyInvocation pm dir args)
     else none
   else none).orElse fun _ =>
  (if FileExists fs (filepathJoin dir "Cargo.toml") then
     cargoFindCommand fs dir "typecheck" args
   else none).orElse fun _ =>
  (if FileExists fs (filepathJoin dir "go.mod") then
     goFindCommand dir "typecheck" args
   else none)

/-- synthesizeTypecheckCommand: the first invocation any candidate directory
produces (the code executes it immediately), none when every branch of every
directory falls through. -/
def synthesizeTypecheckCommand (fs : FS) (cur root : String)
    (args : List String) : Option Invocation :=
  (dirsOf cur root).findSome? fun dir => synthesizeTypecheckDir fs dir args

/-- The capability-absent error of HandleTypecheckCommand. -/
def noTypecheckCapabilityMsg : String :=
  "no typecheck command or type checking capability found for this project"

/-- The synthesis-failure error of synthesizeTypecheckCommand. -/
def couldNotSynthesizeMsg : String :=
  "could not synthesize typecheck command for this project"

/-- HandleTypecheckCommand (src/unnamed/part_001): native find first
(parametrised as `native`, the result of scanning every source of both
directories for "typecheck"), then the capability gate, then synthesis.
Returns (invocations executed, error). -/
def HandleTypecheckCommand (fs : FS) (cur root : String)
    (native : Option Invocation) (args : List String) :
    List Invocation × Option String :=
  match native with
  | some cmd => ([cmd], none)
  | none =>
    if !hasTypecheckCapability fs cur root then
      ([], some noTypecheckCapabilityMsg)
    else
      match synthesizeTypecheckCommand fs cur root args with
      | some cmd => ([cmd], none)
      | none => ([], some couldNotSynthesizeMsg)

/-! ## package internal: MiseSource and JustSource
(src/internal/sources_runners.go) -/

/-- The task names MiseSource.ListCommands parses from the `mise tasks ls`
output: each nonempty trimmed line contributes its first whitespace field. -/
def miseParseTasks (output : String) : List String :=
  (splitCharsOn (Char.ofNat 10) output.data).filterMap fun line =>
    let t := trimChars line
    if t.isEmpty then none
    else
      match fieldsChars t with
      | [] => none
      | taskName :: _ => some (String.mk taskName)

/-- The task names JustSource.ListCommands parses from the `just --list`
output: each nonempty trimmed line not starting with "Available" contributes
the trimmed text before the first hash. -/
def justParseTasks (output : String) : List String :=
  (splitCharsOn (Char.ofNat 10) output.data).filterMap fun line =>
    let t := String.mk (trimChars line)
    if t != "" && !startsWithStr t "Available" then
      let cmd := trimStr (String.mk ((splitCharsOn (Char.ofNat 35) (trimChars line)).headD []))
      if cmd != "" then some cmd else none
    else none

/-- The variant loop of MiseSource.FindCommand: exact membership of each
variant among the parsed task names; first hit builds `mise run <variant>`. -/
def miseFindLoop (dir : String) (args : List String)
    (commands : List String) : List String → Option Invocation
  | [] => none
  | v :: rest =>
    if commands.contains v then some ⟨"mise", "run" :: v :: args, dir⟩
    else miseFindLoop dir args commands rest

/-- The variant loop of JustSource.FindCommand: exact membership of each
variant among the parsed task names; first hit builds `just <variant>`. -/
def justFindLoop (dir : String) (args : List String)
    (commands : List String) : List String → Option Invocation
  | [] => none
  | v :: rest =>
    if commands.contains v then some ⟨"just", v :: args, dir⟩
    else justFindLoop dir args commands rest

namespace MiseSource

/-- MiseSource.FindCommand, parametrised by the raw task-listing output the
`mise tasks ls` subprocess would produce. -/
def FindCommand (output dir command : String) (args : List String) : Option Invocation :=
  miseFindLoop dir args (miseParseTasks output) (GetCommandVariants command)

end MiseSource

namespace JustSource

/-- JustSource.FindCommand, parametrised by the raw task-listing output the
`just --list` subprocess would produce. -/
def FindCommand (output dir command : String) (args : List String) : Option Invocation :=
  justFindLoop dir args (justParseTasks output) (GetCommandVariants command)

end JustSource

/-! ## The discovery cache (getCachedCommands, src/unnamed/part_006 first
document), modelled per source instance with an explicit run counter. -/

/-- The state of the command-list cache for one (source, directory) key,
together with how many times the expensive listing has been executed. -/
structure DiscoveryState where
  cache : Option (List String)
  listRuns : Nat
deriving DecidableEq, Repr

/-- getCachedCommands: return the cached listing when present, otherwise run
the expensive listing (bumping the counter) and store it. -/
def getCachedCommands (listing : List String) (s : DiscoveryState) :
    List String × DiscoveryState :=
  match s.cache with
  | some cached => (cached, s)
  | none => (listing, ⟨some listing, s.listRuns + 1⟩)

/-- MiseSource.FindCommand through the cache: one ListCommands call obtains
the (possibly cached) task names, then the pure variant loop probes them. -/
def miseFindCommandCached (listing : List String) (dir command : String)
    (args : List String) (s : DiscoveryState) :
    Option Invocation × DiscoveryState :=
  let r := getCachedCommands listing s
  (miseFindLoop dir args r.1 (GetCommandVariants command), r.2)

/-- JustSource.FindCommand through the cache. -/
def justFindCommandCached (listing : List String) (dir command : String)
    (args : List String) (s : DiscoveryState) :
    Option Invocation × DiscoveryState :=
  let r := getCachedCommands listing s
  (justFindLoop dir args r.1 (GetCommandVariants command), r.2)

theorem miseFindLoop_eq_findSome (dir : String) (args : List String)
    (commands : List String) (l : List String) :
    miseFindLoop dir args commands l =
      l.findSome? fun v =>
        if commands.contains v then some (Invocation.mk "mise" ("run" :: v :: args) dir)
        else none := by
  induction l with
  | nil => rfl
  | cons v rest ih =>
    cases h : commands.contains v <;>
      · simp only [miseFindLoop, List.findSome?_cons]
        rw [h]
        simp [ih]

theorem justFindLoop_eq_findSome (dir : String) (args : List String)
    (commands : List String) (l : List String) :
    justFindLoop dir args commands l =
      l.findSome? fun v =>
        if commands.contains v then some (Invocation.mk "just" (v :: args) dir)
        else none := by
  induction l with
  | nil => rfl
  | cons v rest ih =>
    cases h : commands.contains v <;>
      · simp only [justFindLoop, List.findSome?_cons]
        rw [h]
        simp [ih]

theorem findSomeIf_isSome {α β : Type} (l : List α) (p : α → Bool) (g : α → β) :
    (l.findSome? fun v => if p v then some (g v) else none).isSome = l.any p := by
  induction l with
  | nil => rfl
  | cons v rest ih =>
    cases h : p v <;> simp [List.findSome?_cons, h, ih]

end CmdRunnerProof.Internal

namespace CmdRunnerProof

open CmdRunnerProof.Internal

/-- C8 (confirmed).  Canonicalization is idempotent: for every verb string v,
aliased or unknown, NormalizeCommand (NormalizeCommand v) = NormalizeCommand v. -/
theorem claim8_normalize_idempotent (v : String) :
    NormalizeCommand (NormalizeCommand v) = NormalizeCommand v := by
  unfold NormalizeCommand
  cases h : lookupSL aliasesTable v with
  | none => simp [h]
  | some alternatives =>
    simp only [h]
    obtain ⟨p, hp, hv⟩ := lookupSL_mem aliasesTable v alternatives h
    have hall := aliasesTable_values_fixed
    rw [List.all_eq_true] at hall
    have hfix := hall p hp
    rw [beq_iff_eq] at hfix
    rw [hv] at hfix
    have hgoal : NormalizeCommand alternatives.headI = alternatives.headI := hfix
    unfold NormalizeCommand at hgoal
    exact hgoal

end CmdRunnerProof

namespace CmdRunnerProof.Cmdrunner

open CmdRunnerProof

/-! ## check synthesis (synthesizeCheckCommand, src/internal/typecheck_test.go
second document, package cmdrunner) -/

/-- The environment a check-synthesis run observes: whether each constituent
verb resolves anywhere (r.hasCommand), whether the project has typecheck
capability (r.hasTypecheckCapability), and whether running a constituent
through a fresh sub-runner succeeds (subRunner.Run() == nil). -/
structure CheckEnv where
  hasCommand : String → Bool
  hasTypecheckCapability : Bool
  runCommand : String → Bool

/-- The fixed constituent order of synthesizeCheckCommand. -/
def checkCommands : List String := ["lint", "typecheck", "test"]

/-- The constituent loop of synthesizeCheckCommand: skip typecheck when
capability is absent, skip unresolvable constituents, run the rest in order,
recording every constituent that ran and every one that failed. -/
def checkLoop (env : CheckEnv) : List String → List String × List String
  | [] => ([], [])
  | c :: rest =>
    if c == "typecheck" && !env.hasTypecheckCapability then checkLoop env rest
    else if !env.hasCommand c then checkLoop env rest
    else
      let r := checkLoop env rest
      if env.runCommand c then (c :: r.1, r.2) else (c :: r.1, c :: r.2)

/-- synthesizeCheckCommand: precondition that some constituent resolves, then
the loop; the result is the pair (constituents actually run, error).  The
error aggregates the failed constituents joined with ", ". -/
def synthesizeCheckCommand (env : CheckEnv) : List String × Option String :=
  if !(checkCommands.any env.hasCommand) then
    ([], some "no check, lint, typecheck, or test commands found")
  else
    let r := checkLoop env checkCommands
    (r.1, if r.2.isEmpty then none
          else some ("check failed: " ++ String.intercalate ", " r.2))

/-- Specification-side description of which constituents run: the fixed list
filtered to resolvable constituents, with typecheck additionally gated on
capability. -/
def checkRanSpec (env : CheckEnv) : List String :=
  checkCommands.filter fun c =>
    (!(c == "typecheck") || env.hasTypecheckCapability) && env.hasCommand c

/-- Specification-side description of the failing constituents: exactly the
ones that ran and whose run failed. -/
def checkFailedSpec (env : CheckEnv) : List String :=
  (checkRanSpec env).filter fun c => !env.runCommand c

theorem checkLoop_eq (env : CheckEnv) (cs : List String) :
    checkLoop env cs =
      (cs.filter (fun c => (!(c == "typecheck") || env.hasTypecheckCapability)
          && env.hasCommand c),
       (cs.filter (fun c => (!(c == "typecheck") || env.hasTypecheckCapability)
          && env.hasCommand c)).filter (fun c => !env.runCommand c)) := by
  induction cs with
  | nil => rfl
  | cons c rest ih =>
    by_cases htc : (c == "typecheck" && !env.hasTypecheckCapability) = true
    · have hgate : ((!(c == "typecheck") || env.hasTypecheckCapability)
          && env.hasCommand c) = false := by
        rw [Bool.and_eq_true] at htc
        simp [htc.1, htc.2]
        revert htc
        cases env.hasTypecheckCapability <;> simp
      simp [checkLoop, htc, hgate, ih]
    · by_cases hhc : env.hasCommand c
      · have hgate1 : (!(c == "typecheck") || env.hasTypecheckCapability) = true := by
          revert htc
          cases h1 : (c == "typecheck") <;> cases env.hasTypecheckCapability <;> simp
        by_cases hrun : env.runCommand c <;>
          simp [checkLoop, htc, hhc, hgate1, ih, hrun, List.filter_cons,
            List.filter_filter]
      · have hgate : ((!(c == "typecheck") || env.hasTypecheckCapability)
            && env.hasCommand c) = false := by
          simp [Bool.not_eq_true] at hhc
          simp [hhc]
        simp [checkLoop, htc, hhc, hgate, ih]

/-! ## fix synthesis (src/fix.go, package cmdrunner) -/

/-- The environment a fix-synthesis run observes: whether each verb resolves
(r.hasCommand), whether a run of (verb, flag args ++ user args) through a
fresh sub-runner succeeds, and the r.supportsLintFix() flag. -/
structure FixEnv where
  hasCommand : String → Bool
  runCommand : String → List String → Bool
  supportsLintFix : Bool

/-- The ordered fix constituents: format, fmt, and lint --fix only when the
project supports lint auto-fix. -/
def fixCommandsFor (lintFix : Bool) : List (String × List String) :=
  [("format", []), ("fmt", [])] ++ (if lintFix then [("lint", ["--fix"])] else [])

/-- cmdDisplay of a fix constituent (command plus its own flag args). -/
def cmdDisplay (fc : String × List String) : String :=
  if fc.2.isEmpty then fc.1 else fc.1 ++ " " ++ String.intercalate " " fc.2

/-- The constituent loop of synthesizeFixCommand.  State: has a formatting
command already been marked executed (executedTypes["format"], set only in
the success branch of the Go code).  Returns (constituents attempted in
order, display names of the successful ones, hasErrors). -/
def fixLoop (env : FixEnv) (args : List String) :
    List (String × List String) → Bool → List (String × List String) × List String × Bool
  | [], _ => ([], [], false)
  | fc :: rest, formatDone =>
    if !env.hasCommand fc.1 then fixLoop env args rest formatDone
    else if (fc.1 == "format" || fc.1 == "fmt") && formatDone then
      fixLoop env args rest formatDone
    else if env.runCommand fc.1 (fc.2 ++ args) then
      let r := fixLoop env args rest
        (formatDone || (fc.1 == "format" || fc.1 == "fmt"))
      (fc :: r.1, cmdDisplay fc :: r.2.1, r.2.2)
    else
      let r := fixLoop env args rest formatDone
      (fc :: r.1, r.2.1, true)

/-- The observable outcome of synthesizeFixCommand: the constituents run (in
order), the successful ones (executedCommands), whether any failed, and the
returned error. -/
structure FixOutcome where
  ran : List (String × List String)
  succeeded : List String
  hadError : Bool
  err : Option String
deriving DecidableEq, Repr

/-- synthesizeFixCommand (src/fix.go lines 42-123): precondition that some fix
constituent resolves, then the loop; an error is returned only when no
constituent succeeded and at least one failed. -/
def synthesizeFixCommand (env : FixEnv) (args : List String) : FixOutcome :=
  let fixCommands := fixCommandsFor env.supportsLintFix
  if !(fixCommands.any fun fc => env.hasCommand fc.1) then
    ⟨[], [], false, some "no fix, format, or lint commands found"⟩
  else
    let r := fixLoop env args fixCommands false
    ⟨r.1, r.2.1, r.2.2,
     if r.2.1.isEmpty && r.2.2 then some "fix failed: no commands succeeded" else none⟩

/-- Is this constituent a formatting invocation (canonical or alias spelling)? -/
def isFormatInvocation (fc : String × List String) : Bool :=
  fc.1 == "format" || fc.1 == "fmt"

/-! supportsLintFix (src/fix.go lines 126-169) over the filesystem model. -/

/-- The per-directory part of supportsLintFix: ESLint-signalled package.json
or ruff-signalled pyproject.toml yields true, a Cargo.toml yields false
immediately (clippy takes no trailing --fix in this mapping), otherwise
continue to the next directory; false when the directories are exhausted. -/
def supportsLintFixDirs (fs : FS) : List String → Bool
  | [] => false
  | dir :: rest =>
    if FileExists fs (filepathJoin dir "package.json")
        && containsSubstr (readFileD fs (filepathJoin dir "package.json")) "eslint" then
      true
    else if FileExists fs (filepathJoin dir "pyproject.toml")
        && containsSubstr (readFileD fs (filepathJoin dir "pyproject.toml")) "ruff" then
      true
    else if FileExists fs (filepathJoin dir "Cargo.toml") then false
    else supportsLintFixDirs fs rest

/-- supportsLintFix: Go projects (go.mod in current dir or project root) never
support lint --fix; otherwise scan the candidate directories. -/
def supportsLintFix (fs : FS) (cur root : String) : Bool :=
  if FileExists fs (filepathJoin cur "go.mod")
      || FileExists fs (filepathJoin root "go.mod") then false
  else supportsLintFixDirs fs (dirsOf cur root)

theorem synthesizeFixCommand_found (env : FixEnv) (args : List String)
    (h : ((fixCommandsFor env.supportsLintFix).any fun fc => env.hasCommand fc.1) = true) :
    synthesizeFixCommand env args =
      ⟨(fixLoop env args (fixCommandsFor env.supportsLintFix) false).1,
       (fixLoop env args (fixCommandsFor env.supportsLintFix) false).2.1,
       (fixLoop env args (fixCommandsFor env.supportsLintFix) false).2.2,
       if (fixLoop env args (fixCommandsFor env.supportsLintFix) false).2.1.isEmpty
           && (fixLoop env args (fixCommandsFor env.supportsLintFix) false).2.2 then
         some "fix failed: no commands succeeded"
       else none⟩ := by
  simp [synthesizeFixCommand, h]

theorem synthesizeFixCommand_notfound (env : FixEnv) (args : List String)
    (h : ((fixCommandsFor env.supportsLintFix).any fun fc => env.hasCommand fc.1) = false) :
    synthesizeFixCommand env args =
      ⟨[], [], false, some "no fix, format, or lint commands found"⟩ := by
  simp [synthesizeFixCommand, h]

theorem fixLoop_ran_sublist (env : FixEnv) (args : List String)
    (cs : List (String × List String)) (fd : Bool) :
    (fixLoop env args cs fd).1.Sublist cs := by
  induction cs generalizing fd with
  | nil => simp [fixLoop]
  | cons fc rest ih =>
    by_cases h1 : env.hasCommand fc.1
    · by_cases h2 : ((fc.1 == "format" || fc.1 == "fmt") && fd) = true
      · simp only [fixLoop, h1, Bool.not_true, if_false, h2, if_true]
        exact (ih fd).cons fc
      · by_cases h3 : env.runCommand fc.1 (fc.2 ++ args)
        · simp only [fixLoop, h1, Bool.not_true, if_false, h2, h3, if_true]
          exact (ih _).cons₂ fc
        · simp only [fixLoop, h1, Bool.not_true, if_false, h2, h3, Bool.false_eq_true]
          exact (ih fd).cons₂ fc
    · simp only [fixLoop, h1, Bool.not_false, if_true]
      exact (ih fd).cons fc

theorem fixLoop_ran_hasCommand (env : FixEnv) (args : List String)
    (cs : List (String × List String)) (fd : Bool) :
    ∀ fc ∈ (fixLoop env args cs fd).1, env.hasCommand fc.1 = true := by
  induction cs generalizing fd with
  | nil => simp [fixLoop]
  | cons fc rest ih =>
    by_cases h1 : env.hasCommand fc.1
    · by_cases h2 : ((fc.1 == "format" || fc.1 == "fmt") && fd) = true
      · simp only [fixLoop, h1, Bool.not_true, if_false, h2, if_true]
        exact ih fd
      · by_cases h3 : env.runCommand fc.1 (fc.2 ++ args)
        · simp only [fixLoop, h1, Bool.not_true, if_false, h2, h3, if_true]
          intro x hx
          rcases List.mem_cons.mp hx with hx | hx
          · rw [hx]; exact h1
          · exact ih _ x hx
        · simp only [fixLoop, h1, Bool.not_true, if_false, h2, h3, Bool.false_eq_true]
          intro x hx
          rcases List.mem_cons.mp hx with hx | hx
          · rw [hx]; exact h1
          · exact ih fd x hx
    · simp only [fixLoop, h1, Bool.not_false, if_true]
      exact ih fd

theorem fixLoop_characterization (env : FixEnv) (args : List String)
    (cs : List (String × List String)) (fd : Bool) :
    (fixLoop env args cs fd).2.1 =
        ((fixLoop env args cs fd).1.filter
          (fun fc => env.runCommand fc.1 (fc.2 ++ args))).map cmdDisplay
      ∧ (fixLoop env args cs fd).2.2 =
        (fixLoop env args cs fd).1.any
          (fun fc => !env.runCommand fc.1 (fc.2 ++ args)) := by
  induction cs generalizing fd with
  | nil => simp [fixLoop]
  | cons fc rest ih =>
    by_cases h1 : env.hasCommand fc.1
    · by_cases h2 : ((fc.1 == "format" || fc.1 == "fmt") && fd) = true
      · simpa only [fixLoop, h1, Bool.not_true, if_false, h2, if_true] using ih fd
      · by_cases h3 : env.runCommand fc.1 (fc.2 ++ args)
        · simp only [fixLoop, h1, Bool.not_true, if_false, h2, h3, if_true,
            List.filter_cons, List.any_cons, Bool.not_true, Bool.false_or]
          exact ⟨by simp [h3, (ih _).1], by simp [h3, (ih _).2]⟩
        · simp only [fixLoop, h1, Bool.not_true, if_false, h2, h3, Bool.false_eq_true,
            List.filter_cons, List.any_cons]
          have h3f : env.runCommand fc.1 (fc.2 ++ args) = false := by
            simpa using h3
          exact ⟨by simp [h3f, (ih fd).1], by simp [h3f]⟩
    · simp only [fixLoop, h1, Bool.not_false, if_true]
      exact ih fd

/-! ## package cmdrunner: alias table (src/cmdrunner.go) and the Poetry and
uv sources (src/unnamed/part_003) -/

/-- The variants table of GetCommandVariants in src/cmdrunner.go (package
cmdrunner; note install additionally lists setup, unlike the internal table). -/
def variantsTable : List (String × List String) :=
  [("format", ["format", "fmt", "f"]),
   ("f", ["f", "format", "fmt"]),
   ("run", ["run", "r", "dev", "serve", "start"]),
   ("r", ["r", "run", "dev", "serve", "start"]),
   ("dev", ["dev", "run", "serve", "start"]),
   ("serve", ["serve", "s", "dev", "run", "start"]),
   ("s", ["s", "serve", "dev", "run", "start"]),
   ("build", ["build", "b"]),
   ("b", ["b", "build"]),
   ("lint", ["lint", "l"]),
   ("l", ["l", "lint"]),
   ("test", ["test", "t", "tests"]),
   ("t", ["t", "test", "tests"]),
   ("fix", ["fix", "format-fix", "lint-fix"]),
   ("clean", ["clean"]),
   ("install", ["install", "setup"]),
   ("check", ["check"]),
   ("typecheck", ["typecheck", "type-check", "types", "tc"]),
   ("tc", ["tc", "typecheck", "type-check", "types"])]

/-- GetCommandVariants (src/cmdrunner.go, package cmdrunner). -/
def GetCommandVariants (command : String) : List String :=
  match lookupSL variantsTable command with
  | some v => v
  | none => [command]

/-- CommandInfo: description plus what will actually be executed. -/
structure CommandInfo where
  description : String
  execution : String
deriving DecidableEq, Repr

/-- The static poetry verb table of PoetrySource.FindCommand. -/
def poetryCommands : List (String × List String) :=
  [("install", ["install"]),
   ("setup", ["install"]),
   ("run", ["run", "python"]),
   ("test", ["run", "pytest"]),
   ("lint", ["run", "ruff", "check"]),
   ("format", ["run", "ruff", "format"]),
   ("fmt", ["run", "ruff", "format"]),
   ("fix", ["run", "ruff", "check", "--fix"]),
   ("typecheck", ["run", "pyright"]),
   ("tc", ["run", "pyright"]),
   ("build", ["build"]),
   ("publish", ["publish"])]

/-- The variant loop of PoetrySource.FindCommand over its static table. -/
def poetryFindLoop (dir : String) (args : List String) : List String → Option Invocation
  | [] => none
  | v :: rest =>
    match lookupSL poetryCommands v with
    | some poetryCmd => some ⟨"poetry", poetryCmd ++ args, dir⟩
    | none => poetryFindLoop dir args rest

namespace PoetrySource

/-- PoetrySource.ListCommands (src/unnamed/part_003). -/
def ListCommands : List (String × CommandInfo) :=
  [("install", ⟨"Install dependencies", "poetry install"⟩),
   ("run", ⟨"Run Python interpreter", "poetry run python"⟩),
   ("test", ⟨"Run tests", "poetry run pytest"⟩),
   ("format", ⟨"Format code", "poetry run ruff format"⟩),
   ("lint", ⟨"Run linter", "poetry run ruff check"⟩),
   ("typecheck", ⟨"Run type checker", "poetry run pyright"⟩),
   ("build", ⟨"Build distribution", "poetry build"⟩),
   ("publish", ⟨"Publish to PyPI", "poetry publish"⟩)]

/-- PoetrySource.FindCommand: the variant loop over the static table and then,
for any verb at all, the catch-all fallback `poetry run <verb>`. -/
def FindCommand (dir command : String) (args : List String) : Option Invocation :=
  match poetryFindLoop dir args (GetCommandVariants command) with
  | some c => some c
  | none => some ⟨"poetry", "run" :: command :: args, dir⟩

end PoetrySource

/-- The static uv verb table of UvSource.FindCommand. -/
def uvCommands : List (String × List String) :=
  [("install", ["sync"]),
   ("setup", ["sync"]),
   ("run", ["run"]),
   ("test", ["run", "pytest"]),
   ("lint", ["run", "ruff", "check"]),
   ("format", ["run", "ruff", "format"]),
   ("fmt", ["run", "ruff", "format"]),
   ("fix", ["run", "ruff", "check", "--fix"]),
   ("typecheck", ["run", "pyright"]),
   ("tc", ["run", "pyright"])]

/-- The variant loop of UvSource.FindCommand over its static table. -/
def uvFindLoop (dir : String) (args : List String) : List String → Option Invocation
  | [] => none
  | v :: rest =>
    match lookupSL uvCommands v with
    | some uvCmd => some ⟨"uv", uvCmd ++ args, dir⟩
    | none => uvFindLoop dir args rest

namespace UvSource

/-- UvSource.FindCommand: the variant loop over the static table; not-found
after exhausting every variant. -/
def FindCommand (dir command : String) (args : List String) : Option Invocation :=
  uvFindLoop dir args (GetCommandVariants command)

end UvSource

theorem uvFindLoop_eq_findSome (dir : String) (args : List String) (l : List String) :
    uvFindLoop dir args l =
      l.findSome? fun v =>
        (lookupSL uvCommands v).map fun uvCmd => Invocation.mk "uv" (uvCmd ++ args) dir := by
  induction l with
  | nil => rfl
  | cons v rest ih =>
    cases h : lookupSL uvCommands v <;>
      simp [uvFindLoop, List.findSome?_cons, h, ih]

theorem uvFindLoop_eq_none_iff (dir : String) (args : List String) (l : List String) :
    uvFindLoop dir args l = none
      ↔ l.all (fun v => (lookupSL uvCommands v).isNone) = true := by
  induction l with
  | nil => simp [uvFindLoop]
  | cons v rest ih =>
    cases h : lookupSL uvCommands v <;>
      simp [uvFindLoop, h, ih]

end CmdRunnerProof.Cmdrunner

namespace CmdRunnerProof

open CmdRunnerProof.Internal
open CmdRunnerProof.Cmdrunner

/-- C2 (confirmed).  When at least one constituent resolves, synthesized
`check` runs exactly the resolvable constituents in the fixed order lint,
typecheck, test — typecheck skipped entirely (not counted as failure) when
capability is absent — continuing past failures, and the result is an
aggregate error naming every failed constituent and only those, or success
when none failed. -/
theorem claim2_check_synthesis (env : CheckEnv)
    (h : checkCommands.any env.hasCommand = true) :
    (synthesizeCheckCommand env).1 = checkRanSpec env
      ∧ (synthesizeCheckCommand env).2 =
          (if (checkFailedSpec env).isEmpty then none
           else some ("check failed: " ++ String.intercalate ", " (checkFailedSpec env))) := by
  unfold synthesizeCheckCommand
  rw [h]
  simp only [Bool.not_true, if_false, checkLoop_eq]
  exact ⟨rfl, rfl⟩

/-- The C2 witness environment: lint and test resolve, typecheck capability is
absent, lint fails and test succeeds. -/
def envC2 : CheckEnv :=
  ⟨fun c => c == "lint" || c == "test", false, fun c => c == "test"⟩

/-- Witness for C2 at `envC2`: the hypothesis holds and the theorem yields the
characterization there (concretely, lint and test run and the aggregate error
names exactly lint). -/
theorem claim2_check_synthesis_witness :
    checkCommands.any envC2.hasCommand = true
      ∧ ((synthesizeCheckCommand envC2).1 = checkRanSpec envC2
         ∧ (synthesizeCheckCommand envC2).2 =
            (if (checkFailedSpec envC2).isEmpty then none
             else some ("check failed: "
                ++ String.intercalate ", " (checkFailedSpec envC2)))) :=
  ⟨by decide, claim2_check_synthesis envC2 (by decide)⟩

/-- The environment in which no check constituent resolves anywhere. -/
def envC6 : CheckEnv := ⟨fun _ => false, false, fun _ => false⟩

/-- C6 counterexample.  When none of lint, typecheck, test resolves, the
precondition failure runs zero constituents, but its message is
"no check, lint, typecheck, or test commands found" — not the string
"no check/lint/typecheck/test commands found" stated by the claim. -/
theorem claim6_check_precondition_counterexample :
    (synthesizeCheckCommand envC6).1 = []
      ∧ (synthesizeCheckCommand envC6).2 =
          some "no check, lint, typecheck, or test commands found"
      ∧ ("no check, lint, typecheck, or test commands found" : String)
          ≠ "no check/lint/typecheck/test commands found" := by
  decide

/-- C6 (corrected).  If none of lint, typecheck, or test resolves, check fails
with the precondition error "no check, lint, typecheck, or test commands
found" and runs zero constituent subprocesses. -/
theorem claim6_check_precondition (env : CheckEnv)
    (h : checkCommands.any env.hasCommand = false) :
    synthesizeCheckCommand env =
      ([], some "no check, lint, typecheck, or test commands found") := by
  unfold synthesizeCheckCommand
  rw [h]
  rfl

/-- Witness for C6 at `envC6`. -/
theorem claim6_check_precondition_witness :
    checkCommands.any envC6.hasCommand = false
      ∧ synthesizeCheckCommand envC6 =
          ([], some "no check, lint, typecheck, or test commands found") :=
  ⟨by decide, claim6_check_precondition envC6 (by decide)⟩

/-- The C4 counterexample environment: both format and fmt resolve, every run
fails, lint auto-fix unsupported. -/
def envC4 : FixEnv :=
  ⟨fun c => c == "format" || c == "fmt", fun _ _ => false, false⟩

/-- C4 counterexample.  When both `format` and `fmt` resolve and the first
formatting run fails, synthesized fix executes two formatting invocations:
the dedup flag is only set in the success branch, so a failing `format` does
not suppress the `fmt` attempt.  This falsifies "exactly one formatting
invocation is executed, never two". -/
theorem claim4_fix_dedup_counterexample :
    (synthesizeFixCommand envC4 []).ran = [("format", []), ("fmt", [])]
      ∧ (synthesizeFixCommand envC4 []).ran.countP isFormatInvocation = 2 := by
  decide

/-- C4 (corrected).  Synthesized fix deduplicates formatting only after a
success: when `format` resolves and its run succeeds, exactly one formatting
invocation is executed (never two); in every run at most two formatting
invocations are executed; `lint` runs exactly with the appended `--fix` flag
and only when the static supportsLintFix capability holds and lint resolves;
and supportsLintFix is false for Go projects (go.mod), true for
ESLint-signalled Node projects and for ruff-signalled Python projects. -/
theorem claim4_fix_dedup_amended (env : FixEnv) (args : List String)
    (fs : FS) (cur root : String) :
    ((env.hasCommand "format" = true) → (env.runCommand "format" args = true) →
        (synthesizeFixCommand env args).ran.countP isFormatInvocation = 1)
      ∧ ((synthesizeFixCommand env args).ran.countP isFormatInvocation ≤ 2)
      ∧ (("lint", ["--fix"]) ∈ (synthesizeFixCommand env args).ran →
          env.supportsLintFix = true ∧ env.hasCommand "lint" = true)
      ∧ (FileExists fs (filepathJoin cur "go.mod") = true →
          supportsLintFix fs cur root = false)
      ∧ (FileExists fs (filepathJoin cur "go.mod") = false →
         FileExists fs (filepathJoin root "go.mod") = false →
         FileExists fs (filepathJoin cur "package.json") = true →
         containsSubstr (readFileD fs (filepathJoin cur "package.json")) "eslint" = true →
          supportsLintFix fs cur root = true)
      ∧ (FileExists fs (filepathJoin cur "go.mod") = false →
         FileExists fs (filepathJoin root "go.mod") = false →
         containsSubstr (readFileD fs (filepathJoin cur "package.json")) "eslint" = false →
         FileExists fs (filepathJoin cur "pyproject.toml") = true →
         containsSubstr (readFileD fs (filepathJoin cur "pyproject.toml")) "ruff" = true →
          supportsLintFix fs cur root = true) := by
  refine ⟨?_, ?_, ?_, ?_, ?_, ?_⟩
  · intro hfmt hrun
    cases hslf : env.supportsLintFix <;>
      cases hfm : env.hasCommand "fmt" <;>
        cases hl : env.hasCommand "lint" <;>
          (cases hrl : env.runCommand "lint" ("--fix" :: args) <;>
            simp [synthesizeFixCommand, fixCommandsFor, fixLoop, hfmt, hrun,
              hslf, hfm, hl, hrl, isFormatInvocation])
  · by_cases hfound : ((fixCommandsFor env.supportsLintFix).any
        fun fc => env.hasCommand fc.1) = true
    · have hran : (synthesizeFixCommand env args).ran =
          (fixLoop env args (fixCommandsFor env.supportsLintFix) false).1 := by
        rw [synthesizeFixCommand_found env args hfound]
      rw [hran]
      have hsub :=
        fixLoop_ran_sublist env args (fixCommandsFor env.supportsLintFix) false
      have hle := (hsub.filter isFormatInvocation).length_le
      rw [← List.countP_eq_length_filter, ← List.countP_eq_length_filter] at hle
      refine hle.trans ?_
      cases env.supportsLintFix <;> decide
    · have hran : (synthesizeFixCommand env args).ran = [] := by
        rw [Bool.not_eq_true] at hfound
        rw [synthesizeFixCommand_notfound env args hfound]
      rw [hran]
      decide
  · intro hmem
    by_cases hfound : ((fixCommandsFor env.supportsLintFix).any
        fun fc => env.hasCommand fc.1) = true
    · have hran : (synthesizeFixCommand env args).ran =
          (fixLoop env args (fixCommandsFor env.supportsLintFix) false).1 := by
        rw [synthesizeFixCommand_found env args hfound]
      rw [hran] at hmem
      have hsub :=
        fixLoop_ran_sublist env args (fixCommandsFor env.supportsLintFix) false
      have hmem2 := hsub.mem hmem
      have hslf : env.supportsLintFix = true := by
        cases h : env.supportsLintFix
        · rw [h] at hmem2
          exact absurd hmem2 (by decide)
        · rfl
      refine ⟨hslf, ?_⟩
      have := fixLoop_ran_hasCommand env args
        (fixCommandsFor env.supportsLintFix) false _ hmem
      simpa using this
    · have hran : (synthesizeFixCommand env args).ran = [] := by
        rw [Bool.not_eq_true] at hfound
        rw [synthesizeFixCommand_notfound env args hfound]
      rw [hran] at hmem
      exact absurd hmem (by simp)
  · intro hgo
    simp [supportsLintFix, hgo]
  · intro hgo1 hgo2 hpkg hesl
    simp only [supportsLintFix, hgo1, hgo2, Bool.or_self, Bool.false_or, if_false]
    cases h : (root == cur) <;>
      simp [dirsOf, h, supportsLintFixDirs, hpkg, hesl]
  · intro hgo1 hgo2 hesl hpy hruff
    simp only [supportsLintFix, hgo1, hgo2, Bool.or_self, Bool.false_or, if_false]
    cases h : (root == cur) <;>
      simp [dirsOf, h, supportsLintFixDirs, hesl, hpy, hruff]

/-- The C4 witness environment: format, fmt, lint all resolve, formatting
succeeds, lint auto-fix supported. -/
def envC4w : FixEnv :=
  ⟨fun c => c == "format" || c == "fmt" || c == "lint", fun _ _ => true, true⟩

/-- The C4 witness filesystem: an ESLint-signalled Node project at `n` and a
ruff-signalled Python project at `y` (no go.mod anywhere). -/
def fsC4w : FS :=
  [("n/package.json", "devDependencies eslint"), ("y/pyproject.toml", "tool ruff")]

/-- Witness for C4: the amended theorem applied at a concrete environment and
filesystem, discharging every hypothesis. -/
theorem claim4_fix_dedup_amended_witness :
    (envC4w.hasCommand "format" = true ∧ envC4w.runCommand "format" [] = true
      ∧ (synthesizeFixCommand envC4w []).ran.countP isFormatInvocation = 1)
      ∧ (FileExists fsC4w (filepathJoin "n" "go.mod") = false
          ∧ containsSubstr (readFileD fsC4w (filepathJoin "n" "package.json")) "eslint" = true
          ∧ supportsLintFix fsC4w "n" "n" = true)
      ∧ (containsSubstr (readFileD fsC4w (filepathJoin "y" "package.json")) "eslint" = false
          ∧ containsSubstr (readFileD fsC4w (filepathJoin "y" "pyproject.toml")) "ruff" = true
          ∧ supportsLintFix fsC4w "y" "y" = true) := by
  refine ⟨⟨by decide, by decide, ?_⟩, ⟨by decide, by decide, ?_⟩, ⟨by decide, by decide, ?_⟩⟩
  · exact (claim4_fix_dedup_amended envC4w [] fsC4w "n" "n").1 (by decide) (by decide)
  · exact (claim4_fix_dedup_amended envC4w [] fsC4w "n" "n").2.2.2.2.1
      (by decide) (by decide) (by decide) (by decide)
  · exact (claim4_fix_dedup_amended envC4w [] fsC4w "y" "y").2.2.2.2.2
      (by decide) (by decide) (by decide) (by decide) (by decide)

/-- The C5 counterexample environment: format and lint resolve, the format run
fails, the lint run succeeds, lint auto-fix supported. -/
def envC5 : FixEnv :=
  ⟨fun c => c == "format" || c == "lint", fun c _ => c == "lint", true⟩

/-- C5 counterexample.  A run of synthesized fix in which the `format`
constituent fails but `lint --fix` succeeds returns no error at all: the
constituent failure is silently swallowed because another constituent
succeeded.  This falsifies "for every run in which at least one constituent
of fix fails, fix returns a nonzero aggregate error naming every failed
constituent". -/
theorem claim5_fix_aggregate_counterexample :
    (synthesizeFixCommand envC5 []).err = none
      ∧ ("format", ([] : List String)) ∈ (synthesizeFixCommand envC5 []).ran
      ∧ envC5.runCommand "format" [] = false
      ∧ (synthesizeFixCommand envC5 []).succeeded = ["lint --fix"] := by
  decide

/-- C5 (corrected).  Synthesized fix does not follow check's aggregate-error
policy: it returns the fixed error "fix failed: no commands succeeded"
(naming no constituents) exactly when at least one constituent was attempted
and every attempted constituent failed; when any constituent succeeds, the
failures of the others are swallowed and fix returns success.  The only other
error is the precondition failure "no fix, format, or lint commands found",
returned exactly when no fix constituent resolves. -/
theorem claim5_fix_aggregate_amended (env : FixEnv) (args : List String) :
    ((synthesizeFixCommand env args).err = some "fix failed: no commands succeeded"
        ↔ ((synthesizeFixCommand env args).ran ≠ []
            ∧ (synthesizeFixCommand env args).ran.all
                (fun fc => !env.runCommand fc.1 (fc.2 ++ args)) = true))
      ∧ ((synthesizeFixCommand env args).err = some "no fix, format, or lint commands found"
        ↔ ((fixCommandsFor env.supportsLintFix).any fun fc => env.hasCommand fc.1) = false) := by
  by_cases hfound : ((fixCommandsFor env.supportsLintFix).any
      fun fc => env.hasCommand fc.1) = true
  · have hrw := synthesizeFixCommand_found env args hfound
    have hranEq : (synthesizeFixCommand env args).ran =
        (fixLoop env args (fixCommandsFor env.supportsLintFix) false).1 := by
      rw [hrw]
    have herrEq : (synthesizeFixCommand env args).err =
        (if (fixLoop env args (fixCommandsFor env.supportsLintFix) false).2.1.isEmpty
            && (fixLoop env args (fixCommandsFor env.supportsLintFix) false).2.2 then
          some "fix failed: no commands succeeded"
        else none) := by
      rw [hrw]
    rw [hranEq, herrEq]
    have hcore := fixLoop_characterization env args
      (fixCommandsFor env.supportsLintFix) false
    constructor
    · constructor
      · intro h
        have hcond : ((fixLoop env args (fixCommandsFor env.supportsLintFix) false).2.1.isEmpty
            && (fixLoop env args (fixCommandsFor env.supportsLintFix) false).2.2) = true := by
          by_contra hc
          rw [Bool.not_eq_true] at hc
          rw [if_neg (by simp [hc])] at h
          exact absurd h (by simp)
        rw [Bool.and_eq_true] at hcond
        obtain ⟨hempty, herr⟩ := hcond
        rw [hcore.2] at herr
        rw [hcore.1] at hempty
        rw [List.isEmpty_iff, List.map_eq_nil_iff, List.filter_eq_nil_iff] at hempty
        constructor
        · intro hnil
          rw [hnil] at herr
          simp at herr
        · rw [List.all_eq_true]
          intro fc hfc
          have hf := hempty fc hfc
          rw [Bool.not_eq_true] at hf
          simp [hf]
      · rintro ⟨hne, hall⟩
        have hempty : (fixLoop env args
            (fixCommandsFor env.supportsLintFix) false).2.1.isEmpty = true := by
          rw [hcore.1]
          rw [List.isEmpty_iff, List.map_eq_nil_iff, List.filter_eq_nil_iff]
          intro fc hfc
          rw [List.all_eq_true] at hall
          simpa using hall fc hfc
        have herr : (fixLoop env args
            (fixCommandsFor env.supportsLintFix) false).2.2 = true := by
          rw [hcore.2]
          rw [List.any_eq_true]
          obtain ⟨fc, hfc⟩ := List.exists_mem_of_ne_nil _ hne
          refine ⟨fc, hfc, ?_⟩
          rw [List.all_eq_true] at hall
          exact hall fc hfc
        rw [if_pos (by simp [hempty, herr])]
    · constructor
      · intro h
        by_cases hcond : ((fixLoop env args (fixCommandsFor env.supportsLintFix) false).2.1.isEmpty
            && (fixLoop env args (fixCommandsFor env.supportsLintFix) false).2.2) = true
        · rw [if_pos hcond] at h
          exact absurd (Option.some.inj h) (by decide)
        · rw [Bool.not_eq_true] at hcond
          rw [if_neg (by simp [hcond])] at h
          exact absurd h (by simp)
      · intro h
        rw [h] at hfound
        exact absurd hfound (by decide)
  · rw [Bool.not_eq_true] at hfound
    have hrw := synthesizeFixCommand_notfound env args hfound
    have hranEq : (synthesizeFixCommand env args).ran = [] := by rw [hrw]
    have herrEq : (synthesizeFixCommand env args).err =
        some "no fix, format, or lint commands found" := by rw [hrw]
    rw [hranEq, herrEq]
    constructor
    · constructor
      · intro h
        exact absurd (Option.some.inj h) (by decide)
      · rintro ⟨hne, _⟩
        exact absurd rfl hne
    · constructor
      · intro _
        exact hfound
      · intro _
        rfl

/-- C1 (code_bug evidence).  In a project whose Makefile defines both a target
literally named `f` and a target named `format`, invoking the typed verb `f`
executes `make format`, not the literally named `f` task: New canonicalizes the
verb before Run, so the first resolution phase probes the canonical spelling
first, even though the `f` target exists among the parsed Make targets. -/
theorem claim1_literal_match_code_divergence :
    cmdrInvoke "f" [] projectsC1 = .exec ⟨"make", ["format"], "d"⟩
      ∧ "f" ∈ makeListCommands fsC1 "d"
      ∧ NormalizeCommand "f" = "format" := by
  decide

/-- C3 (confirmed).  Typecheck capability gating: with no native typecheck
command, (a) when no candidate directory has a TypeScript config, a
pyproject.toml mentioning pyright or mypy, a Cargo.toml, or a go.mod,
HandleTypecheckCommand fails immediately with the capability-absent error —
distinct from the generic NotFound error — executing zero invocations and
without any synthesis result; (b) when capability is present but synthesis
constructs no invocation, it fails with the distinct could-not-synthesize
error, again executing nothing. -/
theorem claim3_typecheck_gating (fs : FS) (cur root : String) (args : List String) :
    ((hasTypecheckCapability fs cur root = false) →
        HandleTypecheckCommand fs cur root none args = ([], some noTypecheckCapabilityMsg))
      ∧ ((hasTypecheckCapability fs cur root = true) →
         (synthesizeTypecheckCommand fs cur root args = none) →
            HandleTypecheckCommand fs cur root none args = ([], some couldNotSynthesizeMsg))
      ∧ noTypecheckCapabilityMsg ≠ noCommandFoundMsg "typecheck"
      ∧ couldNotSynthesizeMsg ≠ noTypecheckCapabilityMsg
      ∧ couldNotSynthesizeMsg ≠ noCommandFoundMsg "typecheck" := by
  refine ⟨?_, ?_, by decide, by decide, by decide⟩
  · intro hcap
    simp [HandleTypecheckCommand, hcap]
  · intro hcap hsynth
    simp [HandleTypecheckCommand, hcap, hsynth]

/-- The C3 capability-absent witness filesystem: an empty directory `p`. -/
def fsC3a : FS := []

/-- The C3 synthesis-failure witness filesystem: directory `q` has a
tsconfig.json but no package manager signal at all, so capability is present
but no tsc invocation can be constructed. -/
def fsC3b : FS := [("q/tsconfig.json", "compilerOptions")]

/-- Witness for C3: both implications applied at concrete filesystems with
every hypothesis discharged. -/
theorem claim3_typecheck_gating_witness :
    (hasTypecheckCapability fsC3a "p" "p" = false
      ∧ HandleTypecheckCommand fsC3a "p" "p" none [] = ([], some noTypecheckCapabilityMsg))
      ∧ (hasTypecheckCapability fsC3b "q" "q" = true
        ∧ synthesizeTypecheckCommand fsC3b "q" "q" [] = none
        ∧ HandleTypecheckCommand fsC3b "q" "q" none [] = ([], some couldNotSynthesizeMsg)) :=
  ⟨⟨by decide, (claim3_typecheck_gating fsC3a "p" "p" []).1 (by decide)⟩,
   ⟨by decide, by decide,
    (claim3_typecheck_gating fsC3b "q" "q" []).2.1 (by decide) (by decide)⟩⟩

/-- C7 counterexample.  The Poetry source fabricates an invocation for a verb
none of whose variants it defines: FindCommand "frobnicate" returns
`poetry run frobnicate` even though no variant of "frobnicate" is in its
static verb table and "frobnicate" is not among its listed commands. -/
theorem claim7_findcommand_contract_counterexample :
    Cmdrunner.PoetrySource.FindCommand "p" "frobnicate" [] =
        some ⟨"poetry", ["run", "frobnicate"], "p"⟩
      ∧ (Cmdrunner.GetCommandVariants "frobnicate").all
          (fun v => (lookupSL Cmdrunner.poetryCommands v).isNone) = true
      ∧ (Cmdrunner.PoetrySource.ListCommands.map Prod.fst).contains "frobnicate" = false := by
  decide

/-- C7 (corrected).  The findCommand contract holds for the uv source: it
returns exactly the invocation of the first variant of the verb defined in
its own table, and not-found exactly when every variant is undefined.  The
Poetry source violates the contract: after exhausting its variants it falls
back to the fabricated `poetry run <verb>`, so it never returns not-found. -/
theorem claim7_findcommand_contract_amended (dir command : String) (args : List String) :
    (Cmdrunner.UvSource.FindCommand dir command args
        = (Cmdrunner.GetCommandVariants command).findSome? (fun v =>
            (lookupSL Cmdrunner.uvCommands v).map
              (fun uvCmd => Invocation.mk "uv" (uvCmd ++ args) dir)))
      ∧ ((Cmdrunner.UvSource.FindCommand dir command args = none)
          ↔ (Cmdrunner.GetCommandVariants command).all
              (fun v => (lookupSL Cmdrunner.uvCommands v).isNone) = true)
      ∧ (Cmdrunner.PoetrySource.FindCommand dir command args).isSome = true := by
  refine ⟨Cmdrunner.uvFindLoop_eq_findSome dir args _,
    Cmdrunner.uvFindLoop_eq_none_iff dir args _, ?_⟩
  unfold Cmdrunner.PoetrySource.FindCommand
  cases Cmdrunner.poetryFindLoop dir args
      (Cmdrunner.GetCommandVariants command) <;> rfl

/-- C9 (confirmed).  Within a resolution pass, the mise and just sources run
their expensive discovery listing at most once per source instance: one
FindCommand call increases the run counter by at most one (regardless of how
many variants it probes), a call on an instance whose cache is already
populated runs no listing at all, and a second FindCommand call after a first
never runs the listing again. -/
theorem claim9_discovery_cached_once (listing : List String)
    (dir command command2 : String) (args args2 : List String)
    (s : DiscoveryState) (l : List String) (n : Nat) :
    ((miseFindCommandCached listing dir command args s).2.listRuns ≤ s.listRuns + 1)
      ∧ ((miseFindCommandCached listing dir command args ⟨some l, n⟩).2.listRuns = n)
      ∧ ((miseFindCommandCached listing dir command2 args2
            (miseFindCommandCached listing dir command args s).2).2.listRuns
          = (miseFindCommandCached listing dir command args s).2.listRuns)
      ∧ ((justFindCommandCached listing dir command args s).2.listRuns ≤ s.listRuns + 1)
      ∧ ((justFindCommandCached listing dir command args ⟨some l, n⟩).2.listRuns = n)
      ∧ ((justFindCommandCached listing dir command2 args2
            (justFindCommandCached listing dir command args s).2).2.listRuns
          = (justFindCommandCached listing dir command args s).2.listRuns) := by
  obtain ⟨cache, listRuns⟩ := s
  cases cache <;>
    simp [miseFindCommandCached, justFindCommandCached, getCachedCommands,
      Nat.le_succ]

/-- The raw mise task listing of the C10 counterexample: a single task named
checkstyle, whose name contains "check" as a substring. -/
def miseOutC10 : String := "checkstyle  Check code style"

/-- The raw just task listing of the C10 counterexample. -/
def justOutC10 : String := "Available recipes:\n    checkstyle # check style"

/-- C10 counterexample.  The internal mise and just sources match variants
exactly against the parsed task names, not as substrings of the raw output:
with a task list containing only `checkstyle`, resolving the verb `check`
yields not-found for both sources, even though "check" occurs as a substring
of the raw listing output. -/
theorem claim10_substring_match_counterexample :
    MiseSource.FindCommand miseOutC10 "d" "check" [] = none
      ∧ containsSubstr miseOutC10 "check" = true
      ∧ miseParseTasks miseOutC10 = ["checkstyle"]
      ∧ JustSource.FindCommand justOutC10 "d" "check" [] = none
      ∧ containsSubstr justOutC10 "check" = true
      ∧ justParseTasks justOutC10 = ["checkstyle"] := by
  decide

/-- C10 (corrected).  For the internal mise and just sources, a verb resolves
exactly when some variant spelling equals one of the task names parsed from
the listing output (mise: first whitespace field of each nonempty line; just:
trimmed text before the first hash of each non-header line), and the
invocation built is `mise run <variant>` / `just <variant>` for the first
such variant — substring occurrences elsewhere in the raw output are not
matches.  (The older package-cmdrunner miseRunner/justRunner and the
findNativeCheckCommand helper do use strings.Contains on the raw output.) -/
theorem claim10_substring_match_amended (output dir command : String)
    (args : List String) :
    (MiseSource.FindCommand output dir command args
        = (Internal.GetCommandVariants command).findSome? (fun v =>
            if (miseParseTasks output).contains v then
              some (Invocation.mk "mise" ("run" :: v :: args) dir)
            else none))
      ∧ ((MiseSource.FindCommand output dir command args).isSome
          = (Internal.GetCommandVariants command).any
              (fun v => (miseParseTasks output).contains v))
      ∧ (JustSource.FindCommand output dir command args
        = (Internal.GetCommandVariants command).findSome? (fun v =>
            if (justParseTasks output).contains v then
              some (Invocation.mk "just" (v :: args) dir)
            else none))
      ∧ ((JustSource.FindCommand output dir command args).isSome
          = (Internal.GetCommandVariants command).any
              (fun v => (justParseTasks output).contains v)) := by
  refine ⟨miseFindLoop_eq_findSome dir args _ _, ?_,
    justFindLoop_eq_findSome dir args _ _, ?_⟩
  · rw [MiseSource.FindCommand, miseFindLoop_eq_findSome]
    exact findSomeIf_isSome _ _ _
  · rw [JustSource.FindCommand, justFindLoop_eq_findSome]
    exact findSomeIf_isSome _ _ _

end CmdRunnerProof
